import Mathlib

/-!
Shallow embedding of src/ROOTFS/usr/bin/waggle_network_watchdog.py.

Conventions of the embedding:
- Machine integers are Int (Python ints are unbounded, so no wrapping).
- Python floats in the health-ratio computations are modelled as rationals.
- A counter file is one of: absent, present with unparseable contents
  (FData.junk, covering both read errors and int() parse failures), or
  present holding the decimal representation of an integer (FData.num n).
  The three configured counter paths are modelled as three distinct slots
  (CounterId), matching their use as three distinct named files.
- Side effects the watchdog performs on the platform are recorded in an
  event trace (Event): counter writes issued through write_current_resets,
  set_next_boot_media, service restarts, reboot and poweroff requests.
  The file creation performed inside read_current_resets for an absent
  file is modelled as a state change of the file slot (it initialises the
  slot to 0); it is a read-path lazy initialisation, not one of the
  explicit counter writes the trace tracks.
- mkdir of parent directories inside read_current_resets is abstracted
  into the creation of the backing slot.
-/

/-! ## Media constants (module level constants in the source) -/

def MEDIA_RECOVERY : Int := 0

def MEDIA_PRIMARY : Int := 1

/-! ## Counter store: the reset files -/

inductive CounterId
  | network
  | soft
  | hard
deriving DecidableEq, Repr

inductive FData
  | num (n : Int)
  | junk
deriving DecidableEq, Repr

def Files : Type := CounterId → Option FData

inductive Event
  | writeCtr (c : CounterId) (n : Int)
  | setNextBootMedia (media : Int)
  | restartNetworkServices
  | reboot
  | poweroff
deriving DecidableEq, Repr

/-- Source read_resets_safe: open the file and int() its first line,
returning 0 on any failure (absent file, unreadable or unparseable data). -/
def read_resets_safe : Option FData → Int
  | some (.num n) => n
  | _ => 0

/-- The value the counter store yields for a slot, as a pure function:
what read_current_resets returns without the creation side effect. -/
def readValue (fs : Files) (c : CounterId) : Int :=
  read_resets_safe (fs c)

/-- Source read_current_resets: if the backing file does not exist, create
its parent directories and the file, store 0 in it and return 0; otherwise
defer to read_resets_safe. Returns the value together with the file state. -/
def read_current_resets (fs : Files) (c : CounterId) : Int × Files :=
  match fs c with
  | none => (0, Function.update fs c (some (.num 0)))
  | some d => (read_resets_safe (some d), fs)

/-- Source write_current_resets (via write_resets_safe): store the value,
recording the write in the event trace. -/
def write_current_resets (fs : Files) (c : CounterId) (n : Int) : Files × List Event :=
  (Function.update fs c (some (.num n)), [Event.writeCtr c n])

/-- Source increment_reset_file: read the current value, write value + 1. -/
def increment_reset_file (fs : Files) (c : CounterId) : Files × List Event :=
  let r := read_current_resets fs c
  write_current_resets r.2 c (r.1 + 1)

/-- Source update_reset_file: read the current value and write only when
the requested value differs from the stored one. -/
def update_reset_file (fs : Files) (c : CounterId) (value : Int) : Files × List Event :=
  let r := read_current_resets fs c
  if value ≠ r.1 then write_current_resets r.2 c value else (r.2, [])

/-- Source log_scoreboard: reads the three counters (network, soft, hard)
for logging; reading may lazily create an absent file. -/
def log_scoreboard (fs : Files) : Files :=
  let fs1 := (read_current_resets fs .network).2
  let fs2 := (read_current_resets fs1 .soft).2
  (read_current_resets fs2 .hard).2

/-- Source reboot_os_helper: log the scoreboard, then request a reboot. -/
def reboot_os_helper (fs : Files) : Files × List Event :=
  (log_scoreboard fs, [Event.reboot])

/-- Source shutdown_os_helper: log the scoreboard, then request poweroff. -/
def shutdown_os_helper (fs : Files) : Files × List Event :=
  (log_scoreboard fs, [Event.poweroff])

/-! ## Health history -/

structure HealthHistoryConfig where
  health_check_history_count : Nat
  health_check_healthy_perc : ℚ
  health_check_recovery_perc : ℚ

structure HealthHistory where
  history : List Bool
  maxlen : Nat
  percentage : ℚ

/-- Source HealthHistory.__init__: a deque of maxlen count filled with
False, with the cached percentage assumed low (0.0) on init. -/
def HealthHistory.init (count : Nat) : HealthHistory :=
  { history := List.replicate count false, maxlen := count, percentage := 0 }

/-- Appending to a deque with a maxlen: the oldest element is evicted when
the deque is full. -/
def dequeAppend (h : List Bool) (maxlen : Nat) (b : Bool) : List Bool :=
  (h ++ [b]).drop (h.length + 1 - maxlen)

/-- Source HealthHistory.add: append the sample and recompute the cached
percentage as count(True) / maxlen. -/
def HealthHistory.add (hh : HealthHistory) (n : Bool) : HealthHistory :=
  let history := dequeAppend hh.history hh.maxlen n
  { history := history
    maxlen := hh.maxlen
    percentage := (history.count true : ℚ) / (hh.maxlen : ℚ) }

/-- Feeding a whole list of samples into a history, oldest first. -/
def HealthHistory.addAll (hh : HealthHistory) (samples : List Bool) : HealthHistory :=
  samples.foldl HealthHistory.add hh

/-! ## Watchdog engine -/

inductive RecActKind
  | network
  | soft
  | hard
deriving DecidableEq, Repr

/-- Source Action (renamed: Action clashes with a Mathlib name): a NamedTuple of a threshold and the recovery callable.
The callable is identified by which of the three recovery functions it is;
NamedTuple equality on (thresh, func) is structural equality here. -/
structure RecAction where
  thresh : Int
  func : RecActKind
deriving DecidableEq, Repr

def threshLE (a b : RecAction) : Prop := a.thresh ≤ b.thresh

instance : DecidableRel threshLE := fun a b => Int.decLe a.thresh b.thresh

instance : IsTotal RecAction threshLE := ⟨fun a b => Int.le_total a.thresh b.thresh⟩

instance : IsTrans RecAction threshLE := ⟨fun _ _ _ hab hbc => le_trans hab hbc⟩

structure Watchdog where
  recovery_actions : List RecAction
  called_actions : Finset RecAction
  health_score_config : HealthHistoryConfig
  health_score : HealthHistory
  last_connection_time : Int

/-- Source Watchdog.__init__: sort the recovery actions by threshold in
increasing order (Python list.sort, a stable sort, modelled by the stable
insertionSort), start with an empty fired set and an all-false history. -/
def Watchdog.init (recovery_actions : List RecAction) (cfg : HealthHistoryConfig)
    (now : Int) : Watchdog :=
  { recovery_actions := List.insertionSort threshLE recovery_actions
    called_actions := ∅
    health_score_config := cfg
    health_score := HealthHistory.init cfg.health_check_history_count
    last_connection_time := now }

/-- The dispatch loop at the end of Watchdog.update: walk the sorted
actions; stop at the first threshold above elapsed; skip already-called
actions; otherwise record the action as called, invoke it, and stop.
Returns the new called set and the list of actions invoked on this pass. -/
def dispatchActions (actions : List RecAction) (called : Finset RecAction) (elapsed : Int) :
    Finset RecAction × List RecAction :=
  match actions with
  | [] => (called, [])
  | a :: rest =>
    if elapsed < a.thresh then (called, [])
    else if a ∈ called then dispatchActions rest called elapsed
    else (insert a called, [a])

/-- The entry the dispatch loop would invoke, as the spec describes
next_due: an Option-valued view of the same loop. -/
def nextDue (actions : List RecAction) (called : Finset RecAction) (elapsed : Int) :
    Option RecAction :=
  match actions with
  | [] => none
  | a :: rest =>
    if elapsed < a.thresh then none
    else if a ∈ called then nextDue rest called elapsed
    else some a

/-- Modelled from the words of the spec, for comparison with the loop in
the source: the first entry in ladder order whose threshold is at most
elapsed and that is not in the fired set. -/
def specNextDue (actions : List RecAction) (called : Finset RecAction) (elapsed : Int) :
    Option RecAction :=
  actions.find? (fun a => decide (a.thresh ≤ elapsed) && decide (a ∉ called))

structure UpdateOut where
  wd : Watchdog
  passed : Bool
  failed : Bool
  invoked : List RecAction

/-- Source Watchdog.update. The Python body runs two sequential ifs after
adding the sample: the healthy branch (ratio at or above the healthy
percentage: call health_check_passed, advance last_connection_time, clear
called_actions) and the recovery branch (ratio strictly below the recovery
percentage: call health_check_failed and run the dispatch loop over the
possibly-just-cleared called set). The four cases below are the case split
of those two sequential ifs; passed and failed record which of the two
callbacks were invoked, and invoked records the actions called. -/
def Watchdog.update (w : Watchdog) (health_check_ok : Bool) (now : Int) : UpdateOut :=
  let elapsed := now - w.last_connection_time
  let score := w.health_score.add health_check_ok
  if w.health_score_config.health_check_healthy_perc ≤ score.percentage then
    if score.percentage < w.health_score_config.health_check_recovery_perc then
      let d := dispatchActions w.recovery_actions ∅ elapsed
      ⟨{ w with
          health_score := score
          called_actions := d.1
          last_connection_time := now }, true, true, d.2⟩
    else
      ⟨{ w with
          health_score := score
          called_actions := ∅
          last_connection_time := now }, true, false, []⟩
  else
    if score.percentage < w.health_score_config.health_check_recovery_perc then
      let d := dispatchActions w.recovery_actions w.called_actions elapsed
      ⟨{ w with
          health_score := score
          called_actions := d.1
          last_connection_time := w.last_connection_time }, false, true, d.2⟩
    else
      ⟨{ w with
          health_score := score
          called_actions := w.called_actions
          last_connection_time := w.last_connection_time }, false, false, []⟩

/-- Running update over a list of (probe outcome, clock reading) inputs,
collecting the per-tick outputs. -/
def runUpdates (w : Watchdog) : List (Bool × Int) → Watchdog × List UpdateOut
  | [] => (w, [])
  | (ok, t) :: rest =>
    let u := w.update ok t
    let r := runUpdates u.wd rest
    (r.1, u :: r.2)

/-! ## Action set (closures built in build_rec_actions over the config) -/

structure NetworkWatchdogConfig where
  current_media : Int
  network_reset_start : Int
  network_reset_interval : Int
  soft_reset_start : Int
  soft_num_resets : Int
  hard_reset_start : Int
  hard_num_resets : Int

/-- Source reset_network_action: restart the network services (which also
fixes modem port settings) and increment the network reset counter. -/
def reset_network_action (fs : Files) : Files × List Event :=
  let i := increment_reset_file fs .network
  (i.1, Event.restartNetworkServices :: i.2)

/-- Source soft_reboot_action: read the soft counter; if it is below the
configured maximum, increment it and reboot; otherwise only log that the
maximum was reached and return to the engine. -/
def soft_reboot_action (cfg : NetworkWatchdogConfig) (fs : Files) : Files × List Event :=
  let r := read_current_resets fs .soft
  if r.1 < cfg.soft_num_resets then
    let i := increment_reset_file r.2 .soft
    let h := reboot_os_helper i.1
    (h.1, i.2 ++ h.2)
  else
    (r.2, [])

/-- Source hard_reboot_action: read and unconditionally increment the hard
counter; below the maximum, power off; at or above it, take the media
switch path: select the opposite boot media, write 0 into the hard, soft
and network counters (in that order), then reboot. -/
def hard_reboot_action (cfg : NetworkWatchdogConfig) (fs : Files) : Files × List Event :=
  let r := read_current_resets fs .hard
  let i := increment_reset_file r.2 .hard
  if r.1 < cfg.hard_num_resets then
    let h := shutdown_os_helper i.1
    (h.1, i.2 ++ h.2)
  else
    let mediaEvt :=
      if cfg.current_media = MEDIA_RECOVERY then Event.setNextBootMedia MEDIA_PRIMARY
      else Event.setNextBootMedia MEDIA_RECOVERY
    let w1 := write_current_resets i.1 .hard 0
    let w2 := write_current_resets w1.1 .soft 0
    let w3 := write_current_resets w2.1 .network 0
    let h := reboot_os_helper w3.1
    (h.1, i.2 ++ [mediaEvt] ++ w1.2 ++ w2.2 ++ w3.2 ++ h.2)

/-- The effect of a ladder entry on the files and the platform, keyed by
which of the three recovery closures the entry holds. -/
def applyRecAction (cfg : NetworkWatchdogConfig) (k : RecActKind) (fs : Files) :
    Files × List Event :=
  match k with
  | .network => reset_network_action fs
  | .soft => soft_reboot_action cfg fs
  | .hard => hard_reboot_action cfg fs

/-- Python range(start, stop, step) for a positive step: the number of
elements, computed so that the elements are start + step * i for i below
this count. -/
def pyRangeLen (start stop step : Int) : Nat :=
  if stop ≤ start then 0 else ((stop - start - 1) / step + 1).toNat

/-- Python range(start, stop, step) for a positive step, as the list of
its elements in order. -/
def pyRange (start stop step : Int) : List Int :=
  (List.range (pyRangeLen start stop step)).map (fun i : Nat => start + step * (i : Int))

/-- The recovery actions table of build_rec_actions before the final
sorted(...) call: the soft and hard entries, then one network entry per
range(network_reset_start, last_action, network_reset_interval) element,
where last_action = min(soft_reset_start, hard_reset_start). -/
def rec_actions_unsorted (cfg : NetworkWatchdogConfig) : List RecAction :=
  [⟨cfg.soft_reset_start, .soft⟩, ⟨cfg.hard_reset_start, .hard⟩] ++
    (pyRange cfg.network_reset_start
        (min cfg.soft_reset_start cfg.hard_reset_start)
        cfg.network_reset_interval).map (fun t => ⟨t, .network⟩)

/-- Source build_rec_actions: the table above sorted by threshold with
Python sorted, a stable sort, modelled by the stable insertionSort. -/
def build_rec_actions (cfg : NetworkWatchdogConfig) : List RecAction :=
  List.insertionSort threshLE (rec_actions_unsorted cfg)

/-! ## build_watchdog: history capacity and the healthy-tick callback -/

/-- Python int() applied to a number: truncation toward zero. -/
def pyIntTrunc (q : ℚ) : Int :=
  if q < 0 then -Int.floor (-q) else Int.floor q

/-- Source build_watchdog: health_check_history_count is
int(health_check_history / health_check_period), with no further guard. -/
def health_check_history_count (history period : ℚ) : Int :=
  pyIntTrunc (history / period)

/-- Source health_check_passed (closure in build_watchdog): set the hard,
soft and network counters to 0, each through update_reset_file, which
writes only when the stored value differs. -/
def health_check_passed (fs : Files) : Files × List Event :=
  let u1 := update_reset_file fs .hard 0
  let u2 := update_reset_file u1.1 .soft 0
  let u3 := update_reset_file u2.1 .network 0
  (u3.1, u1.2 ++ u2.2 ++ u3.2)

/-! ## The composed system: engine plus counter files -/

structure SystemState where
  wd : Watchdog
  files : Files

/-- One tick of the composed system: run the engine update; if the healthy
branch ran, apply the health_check_passed counter resets; if an action was
invoked, apply its effect to the files and the platform. Within a tick the
healthy-branch effects precede the dispatched action (the two Python ifs
run in that order), and the dispatch decision itself depends only on
elapsed time and the called set, never on the files. -/
def systemUpdate (cfg : NetworkWatchdogConfig) (s : SystemState) (ok : Bool)
    (now : Int) : SystemState × List Event :=
  let u := s.wd.update ok now
  let p := if u.passed then health_check_passed s.files else (s.files, [])
  let q :=
    match u.invoked with
    | [] => (p.1, [])
    | a :: _ => applyRecAction cfg a.func p.1
  (⟨u.wd, q.1⟩, p.2 ++ q.2)

/-- Iterating the soft reboot action on the files. -/
def iterSoftAction (cfg : NetworkWatchdogConfig) (fs : Files) : Nat → Files
  | 0 => fs
  | k + 1 => (soft_reboot_action cfg (iterSoftAction cfg fs k)).1

/-- How many ticks of a run invoked a given ladder entry value. -/
def countInvoked (outs : List UpdateOut) (a : RecAction) : Nat :=
  (outs.filter (fun u => decide (a ∈ u.invoked))).length

/-! ## Counter store lemmas -/

theorem read_current_resets_fst (fs : Files) (c : CounterId) :
    (read_current_resets fs c).1 = readValue fs c := by
  unfold read_current_resets readValue
  cases h : fs c <;> simp [h, read_resets_safe]

theorem readValue_read_snd (fs : Files) (c c' : CounterId) :
    readValue (read_current_resets fs c).2 c' = readValue fs c' := by
  unfold read_current_resets readValue
  cases h : fs c with
  | none =>
    by_cases hc : c' = c
    · subst hc
      simp [Function.update_apply, h, read_resets_safe]
    · simp [Function.update_apply, hc]
  | some d => simp

theorem read_current_resets_present (fs : Files) (c : CounterId) (d : FData)
    (h : fs c = some d) : (read_current_resets fs c).2 = fs := by
  unfold read_current_resets
  simp [h]

theorem readValue_write (fs : Files) (c : CounterId) (n : Int) (c' : CounterId) :
    readValue (write_current_resets fs c n).1 c' =
      if c' = c then n else readValue fs c' := by
  unfold write_current_resets readValue
  by_cases h : c' = c <;> simp [Function.update_apply, h, read_resets_safe]

theorem increment_events (fs : Files) (c : CounterId) :
    (increment_reset_file fs c).2 = [Event.writeCtr c (readValue fs c + 1)] := by
  unfold increment_reset_file write_current_resets
  simp [read_current_resets_fst]

theorem readValue_increment (fs : Files) (c c' : CounterId) :
    readValue (increment_reset_file fs c).1 c' =
      if c' = c then readValue fs c + 1 else readValue fs c' := by
  unfold increment_reset_file
  rw [readValue_write, read_current_resets_fst]
  by_cases h : c' = c <;> simp [h, readValue_read_snd]

theorem update_reset_file_events (fs : Files) (c : CounterId) (v : Int) :
    (update_reset_file fs c v).2 =
      if v ≠ readValue fs c then [Event.writeCtr c v] else [] := by
  simp only [update_reset_file, write_current_resets]
  rw [read_current_resets_fst]
  by_cases h : v ≠ readValue fs c <;> simp [h]

theorem readValue_update_reset_file (fs : Files) (c : CounterId) (v : Int)
    (c' : CounterId) :
    readValue (update_reset_file fs c v).1 c' =
      if c' = c then v else readValue fs c' := by
  simp only [update_reset_file]
  rw [read_current_resets_fst]
  by_cases h : v ≠ readValue fs c
  · rw [if_pos h, readValue_write]
    by_cases hc : c' = c <;> simp [hc, readValue_read_snd]
  · rw [if_neg h]
    push_neg at h
    by_cases hc : c' = c <;> simp [hc, readValue_read_snd, h.symm]

theorem readValue_log_scoreboard (fs : Files) (c : CounterId) :
    readValue (log_scoreboard fs) c = readValue fs c := by
  unfold log_scoreboard
  rw [readValue_read_snd, readValue_read_snd, readValue_read_snd]

/-- Claim C9: for every counter path, read never fails to the caller (the
model is a total function into Int x Files); when the backing file is
absent it creates it (parent directories abstracted into slot creation),
stores 0 and returns 0; when the file exists but cannot be read or parsed
as an integer it returns 0 and leaves the file untouched. -/
theorem c9_read_never_fails (fs : Files) (c : CounterId) :
    (fs c = none →
      (read_current_resets fs c).1 = 0 ∧
      (read_current_resets fs c).2 c = some (FData.num 0)) ∧
    (fs c = some FData.junk →
      (read_current_resets fs c).1 = 0 ∧ (read_current_resets fs c).2 = fs) ∧
    (∀ n : Int, fs c = some (FData.num n) →
      (read_current_resets fs c).1 = n ∧ (read_current_resets fs c).2 = fs) := by
  refine ⟨fun h => ?_, fun h => ?_, fun n h => ?_⟩
  · unfold read_current_resets
    simp [h, Function.update_apply]
  · unfold read_current_resets
    simp [h, read_resets_safe]
  · unfold read_current_resets
    simp [h, read_resets_safe]

theorem c9_witness :
    (read_current_resets (fun _ => none) CounterId.soft).1 = 0 ∧
    (read_current_resets (fun _ => none) CounterId.soft).2 CounterId.soft =
      some (FData.num 0) ∧
    (read_current_resets (fun _ => some FData.junk) CounterId.hard).1 = 0 := by
  have h1 := (c9_read_never_fails (fun _ => none) CounterId.soft).1 rfl
  have h2 := (c9_read_never_fails (fun _ => some FData.junk) CounterId.hard).2.1 rfl
  exact ⟨h1.1, h1.2, h2.1⟩

/-! ## Health history capacity (build_watchdog) -/

/-- Claim C7 counterexample: with history_seconds 10 and period 15, the
source computes int(10 / 15) = 0, while the claimed formula
max(1, floor(10 / 15)) gives 1; the code has no max(1, ...) guard. -/
theorem c7_counterexample :
    health_check_history_count 10 15 = 0 ∧
    max 1 (Int.floor ((10 : ℚ) / 15)) = 1 ∧ (0 : Int) ≠ 1 := by
  refine ⟨?_, ?_, by decide⟩
  · unfold health_check_history_count pyIntTrunc
    rw [if_neg (by norm_num)]
    rw [Int.floor_eq_zero_iff.mpr (by constructor <;> norm_num)]
  · rw [Int.floor_eq_zero_iff.mpr (by constructor <;> norm_num)]
    simp

/-- Claim C7 amended: the capacity is int(history_seconds / period), a
truncation toward zero with no max(1, ...) guard; hence it equals
floor(history_seconds / period) for the nonnegative configurations, it is
at least 1 exactly when period <= history_seconds, and it is 0 (not 1)
when history_seconds < period. -/
theorem c7_amended (history period : ℚ) (hp : 0 < period) (hh : 0 ≤ history) :
    health_check_history_count history period = Int.floor (history / period) ∧
    (period ≤ history → 1 ≤ health_check_history_count history period) ∧
    (history < period → health_check_history_count history period = 0) := by
  have hq : 0 ≤ history / period := div_nonneg hh hp.le
  unfold health_check_history_count pyIntTrunc
  rw [if_neg (not_lt.mpr hq)]
  refine ⟨rfl, fun hle => ?_, fun hlt => ?_⟩
  · have h1 : (1 : ℚ) ≤ history / period := (one_le_div hp).mpr hle
    exact Int.le_floor.mpr (by exact_mod_cast h1)
  · have h1 : history / period < 1 := (div_lt_one hp).mpr hlt
    exact Int.floor_eq_zero_iff.mpr ⟨hq, h1⟩

theorem c7_amended_witness :
    health_check_history_count 600 15 = Int.floor ((600 : ℚ) / 15) ∧
    1 ≤ health_check_history_count 600 15 ∧
    health_check_history_count 10 15 = 0 := by
  have h1 := c7_amended 600 15 (by norm_num) (by norm_num)
  have h2 := c7_amended 10 15 (by norm_num) (by norm_num)
  exact ⟨h1.1, h1.2.1 (by norm_num), h2.2.2 (by norm_num)⟩

/-! ## Health history invariants -/

theorem dequeAppend_length (h : List Bool) (m : Nat) (hb : h.length = m) (b : Bool) :
    (dequeAppend h m b).length = m := by
  unfold dequeAppend
  simp [hb]

theorem addAll_length (samples : List Bool) :
    ∀ hh : HealthHistory, hh.history.length = hh.maxlen →
      (hh.addAll samples).history.length = hh.maxlen ∧
      (hh.addAll samples).maxlen = hh.maxlen := by
  induction samples with
  | nil => intro hh h; exact ⟨h, rfl⟩
  | cons b rest ih =>
    intro hh h
    have hstep : (hh.add b).history.length = hh.maxlen :=
      dequeAppend_length hh.history hh.maxlen h b
    have := ih (hh.add b) hstep
    simpa [HealthHistory.addAll, List.foldl_cons] using this

theorem addAll_percentage (samples : List Bool) :
    ∀ hh : HealthHistory,
      hh.percentage = (hh.history.count true : ℚ) / (hh.maxlen : ℚ) →
      (hh.addAll samples).percentage =
        ((hh.addAll samples).history.count true : ℚ) / ((hh.addAll samples).maxlen : ℚ) := by
  induction samples with
  | nil => intro hh h; exact h
  | cons b rest ih =>
    intro hh h
    have hstep : (hh.add b).percentage =
        ((hh.add b).history.count true : ℚ) / ((hh.add b).maxlen : ℚ) := rfl
    have := ih (hh.add b) hstep
    simpa [HealthHistory.addAll, List.foldl_cons] using this

/-- Claim C8: for a capacity N at least 1, after init and after any
sequence of add calls the window length equals N, the cached ratio equals
(number of true samples in the window) / N, the true count is between 0
and N, and right after init the window is all false with ratio 0. -/
theorem c8_health_history_invariants (N : Nat) (samples : List Bool) (_hN : 1 ≤ N) :
    ((HealthHistory.init N).addAll samples).maxlen = N ∧
    ((HealthHistory.init N).addAll samples).history.length = N ∧
    ((HealthHistory.init N).addAll samples).percentage =
      (((HealthHistory.init N).addAll samples).history.count true : ℚ) / (N : ℚ) ∧
    ((HealthHistory.init N).addAll samples).history.count true ≤ N ∧
    (HealthHistory.init N).history = List.replicate N false ∧
    (HealthHistory.init N).percentage = 0 := by
  have hlen0 : (HealthHistory.init N).history.length = (HealthHistory.init N).maxlen := by
    simp [HealthHistory.init]
  have hlen := addAll_length samples (HealthHistory.init N) hlen0
  have hmax : ((HealthHistory.init N).addAll samples).maxlen = N := hlen.2
  have hperc0 : (HealthHistory.init N).percentage =
      ((HealthHistory.init N).history.count true : ℚ) / ((HealthHistory.init N).maxlen : ℚ) := by
    simp [HealthHistory.init, List.count_replicate]
  have hperc := addAll_percentage samples (HealthHistory.init N) hperc0
  have hmaxinit : (HealthHistory.init N).maxlen = N := rfl
  refine ⟨hmax, by rw [hlen.1, hmaxinit], by rw [hperc, hmax], ?_, rfl, rfl⟩
  calc ((HealthHistory.init N).addAll samples).history.count true
      ≤ ((HealthHistory.init N).addAll samples).history.length := List.count_le_length _ _
    _ = N := by rw [hlen.1, hmaxinit]

theorem c8_witness :
    ((HealthHistory.init 4).addAll [true, false, true]).maxlen = 4 ∧
    ((HealthHistory.init 4).addAll [true, false, true]).percentage =
      (((HealthHistory.init 4).addAll [true, false, true]).history.count true : ℚ) / (4 : ℚ) := by
  have h := c8_health_history_invariants 4 [true, false, true] (by decide)
  exact ⟨h.1, h.2.2.1⟩

/-! ## Soft reboot action -/

/-- Claim C3: for the soft action, with n the counter value read from the
soft counter path: when n is below soft_max_resets the counter is
incremented to n + 1 and reboot is requested; otherwise the counter value
is unchanged and no platform event is emitted (control returns to the
engine); consequently the soft counter never exceeds soft_max_resets under
repeated invocations from any starting value at most soft_max_resets. -/
theorem c3_soft_reboot_capped (cfg : NetworkWatchdogConfig) (fs : Files) :
    (readValue fs CounterId.soft < cfg.soft_num_resets →
      readValue (soft_reboot_action cfg fs).1 CounterId.soft =
        readValue fs CounterId.soft + 1 ∧
      Event.reboot ∈ (soft_reboot_action cfg fs).2) ∧
    (cfg.soft_num_resets ≤ readValue fs CounterId.soft →
      readValue (soft_reboot_action cfg fs).1 CounterId.soft =
        readValue fs CounterId.soft ∧
      (soft_reboot_action cfg fs).2 = []) ∧
    (readValue fs CounterId.soft ≤ cfg.soft_num_resets →
      ∀ k : Nat,
        readValue (iterSoftAction cfg fs k) CounterId.soft ≤ cfg.soft_num_resets) := by
  have hlt : ∀ g : Files, readValue g CounterId.soft < cfg.soft_num_resets →
      readValue (soft_reboot_action cfg g).1 CounterId.soft =
        readValue g CounterId.soft + 1 ∧
      Event.reboot ∈ (soft_reboot_action cfg g).2 := by
    intro g hg
    simp only [soft_reboot_action, reboot_os_helper]
    rw [read_current_resets_fst, if_pos hg]
    constructor
    · rw [readValue_log_scoreboard, readValue_increment]
      simp [readValue_read_snd]
    · simp
  have hge : ∀ g : Files, cfg.soft_num_resets ≤ readValue g CounterId.soft →
      readValue (soft_reboot_action cfg g).1 CounterId.soft =
        readValue g CounterId.soft ∧
      (soft_reboot_action cfg g).2 = [] := by
    intro g hg
    simp only [soft_reboot_action]
    rw [read_current_resets_fst, if_neg (not_lt.mpr hg)]
    exact ⟨readValue_read_snd g CounterId.soft CounterId.soft, rfl⟩
  refine ⟨hlt fs, hge fs, fun hstart k => ?_⟩
  induction k with
  | zero => exact hstart
  | succ k ih =>
    by_cases hk :
        readValue (iterSoftAction cfg fs k) CounterId.soft < cfg.soft_num_resets
    · have := (hlt _ hk).1
      simp only [iterSoftAction]
      omega
    · have := (hge _ (not_lt.mp hk)).1
      simp only [iterSoftAction]
      omega

theorem c3_witness :
    readValue
        (soft_reboot_action
          ⟨1, 30, 15, 100, 2, 200, 1⟩ (fun _ => some (FData.num 0))).1
        CounterId.soft = 1 ∧
    Event.reboot ∈
      (soft_reboot_action
        ⟨1, 30, 15, 100, 2, 200, 1⟩ (fun _ => some (FData.num 0))).2 ∧
    (soft_reboot_action
        ⟨1, 30, 15, 100, 2, 200, 1⟩ (fun _ => some (FData.num 5))).2 = [] ∧
    readValue
        (iterSoftAction
          ⟨1, 30, 15, 100, 2, 200, 1⟩ (fun _ => some (FData.num 0)) 7)
        CounterId.soft ≤ 2 := by
  have h0 := c3_soft_reboot_capped ⟨1, 30, 15, 100, 2, 200, 1⟩ (fun _ => some (FData.num 0))
  have h5 := c3_soft_reboot_capped ⟨1, 30, 15, 100, 2, 200, 1⟩ (fun _ => some (FData.num 5))
  have ha := h0.1 (by decide)
  exact ⟨ha.1, ha.2, (h5.2.1 (by decide)).2, h0.2.2 (by decide) 7⟩

/-! ## Hard reboot action -/

/-- Claim C1: for the hard action, when the counter value n read from the
hard counter path is at least hard_max_resets, the media switch path runs:
set_next_boot_media is called with the opposite of current_media, then 0
is written to the hard, soft and network counters, then reboot is called.
The event trace makes the ordering exact: the boot media selection comes
before every counter clear, and every counter clear comes before the
reboot request. The trailing readValue conjunct confirms all three
counters read 0 afterwards. -/
theorem c1_hard_media_switch (cfg : NetworkWatchdogConfig) (fs : Files)
    (hmax : cfg.hard_num_resets ≤ readValue fs CounterId.hard)
    (hmedia : cfg.current_media = MEDIA_RECOVERY ∨ cfg.current_media = MEDIA_PRIMARY) :
    (hard_reboot_action cfg fs).2 =
      [Event.writeCtr CounterId.hard (readValue fs CounterId.hard + 1),
       Event.setNextBootMedia (1 - cfg.current_media),
       Event.writeCtr CounterId.hard 0,
       Event.writeCtr CounterId.soft 0,
       Event.writeCtr CounterId.network 0,
       Event.reboot] ∧
    (∀ c : CounterId, readValue (hard_reboot_action cfg fs).1 c = 0) := by
  have hmedia1 : (if cfg.current_media = MEDIA_RECOVERY then
      Event.setNextBootMedia MEDIA_PRIMARY else Event.setNextBootMedia MEDIA_RECOVERY) =
      Event.setNextBootMedia (1 - cfg.current_media) := by
    rcases hmedia with h | h <;> rw [h] <;> simp [MEDIA_RECOVERY, MEDIA_PRIMARY]
  simp only [hard_reboot_action, reboot_os_helper]
  rw [read_current_resets_fst, if_neg (not_lt.mpr hmax)]
  constructor
  · rw [increment_events, readValue_read_snd, hmedia1]
    simp [write_current_resets]
  · intro c
    rw [readValue_log_scoreboard]
    cases c <;> simp [readValue_write]

theorem c1_witness :
    (hard_reboot_action ⟨1, 30, 15, 100, 2, 200, 1⟩ (fun _ => some (FData.num 5))).2 =
      [Event.writeCtr CounterId.hard 6,
       Event.setNextBootMedia 0,
       Event.writeCtr CounterId.hard 0,
       Event.writeCtr CounterId.soft 0,
       Event.writeCtr CounterId.network 0,
       Event.reboot] ∧
    readValue
        (hard_reboot_action ⟨1, 30, 15, 100, 2, 200, 1⟩
          (fun _ => some (FData.num 5))).1 CounterId.soft = 0 := by
  have h := c1_hard_media_switch ⟨1, 30, 15, 100, 2, 200, 1⟩
    (fun _ => some (FData.num 5)) (by decide) (Or.inr rfl)
  exact ⟨h.1, h.2 CounterId.soft⟩

/-! ## Dispatch loop lemmas -/

theorem dispatchActions_invoked_length (l : List RecAction) (called : Finset RecAction)
    (e : Int) : (dispatchActions l called e).2.length ≤ 1 := by
  induction l with
  | nil => simp [dispatchActions]
  | cons a rest ih =>
    simp only [dispatchActions]
    split_ifs with h1 h2
    · simp
    · exact ih
    · simp

theorem dispatchActions_called_subset (l : List RecAction) (called : Finset RecAction)
    (e : Int) : called ⊆ (dispatchActions l called e).1 := by
  induction l with
  | nil => simp [dispatchActions]
  | cons a rest ih =>
    simp only [dispatchActions]
    split_ifs with h1 h2
    · exact Finset.Subset.refl called
    · exact ih
    · exact Finset.subset_insert a called

theorem dispatchActions_invoked_mem (l : List RecAction) (called : Finset RecAction)
    (e : Int) (a : RecAction) (ha : a ∈ (dispatchActions l called e).2) :
    a ∉ called ∧ a ∈ (dispatchActions l called e).1 := by
  induction l with
  | nil => simp [dispatchActions] at ha
  | cons b rest ih =>
    simp only [dispatchActions] at ha ⊢
    split_ifs at ha ⊢ with h1 h2
    · simp at ha
    · exact ih ha
    · simp only [List.mem_singleton] at ha
      subst ha
      exact ⟨h2, Finset.mem_insert_self a called⟩

theorem dispatchActions_mem_fst (l : List RecAction) (called : Finset RecAction)
    (e : Int) (a : RecAction) (ha : a ∈ (dispatchActions l called e).1) :
    a ∈ called ∨ a ∈ (dispatchActions l called e).2 := by
  induction l with
  | nil => simp [dispatchActions] at ha ⊢; exact ha
  | cons b rest ih =>
    simp only [dispatchActions] at ha ⊢
    split_ifs at ha ⊢ with h1 h2
    · exact Or.inl ha
    · exact ih ha
    · rcases Finset.mem_insert.mp ha with h | h
      · exact Or.inr (by simp [h])
      · exact Or.inl h

/-! ## The engine update: one action per tick -/

/-- Claim C2: every call to update invokes at most one recovery action,
and when the pass ratio computed on that tick is at least the healthy
ratio, then under the configuration invariant recovery_perc at most
healthy_perc no recovery action is invoked on that tick. -/
theorem c2_at_most_one_action (w : Watchdog) (ok : Bool) (now : Int) :
    (w.update ok now).invoked.length ≤ 1 ∧
    (w.health_score_config.health_check_recovery_perc ≤
        w.health_score_config.health_check_healthy_perc →
      w.health_score_config.health_check_healthy_perc ≤
        (w.health_score.add ok).percentage →
      (w.update ok now).invoked = []) := by
  simp only [Watchdog.update]
  split_ifs with h1 h2 h3
  · refine ⟨dispatchActions_invoked_length _ _ _, fun hc hh => absurd h2 (not_lt.mpr ?_)⟩
    exact le_trans hc hh
  · exact ⟨by simp, fun _ _ => rfl⟩
  · exact ⟨dispatchActions_invoked_length _ _ _, fun _ hh => absurd hh h1⟩
  · exact ⟨by simp, fun _ _ => rfl⟩

theorem c2_witness :
    ((Watchdog.init [⟨5, RecActKind.network⟩] ⟨4, 7/10, 3/10⟩ 0).update true 10).invoked.length ≤ 1 ∧
    (((Watchdog.init [] ⟨1, 7/10, 3/10⟩ 0).update true 10).invoked = []) := by
  have h1 := c2_at_most_one_action (Watchdog.init [⟨5, RecActKind.network⟩] ⟨4, 7/10, 3/10⟩ 0) true 10
  have h2 := c2_at_most_one_action (Watchdog.init [] ⟨1, 7/10, 3/10⟩ 0) true 10
  refine ⟨h1.1, h2.2 (by norm_num [Watchdog.init]) ?_⟩
  show (7 : ℚ)/10 ≤ ((HealthHistory.init 1).add true).percentage
  norm_num [HealthHistory.init, HealthHistory.add, dequeAppend]

/-! ## next_due: characterisation and monotonicity -/

/-- Claim C5: for a ladder sorted the way the constructor sorts it, the
dispatch loop invokes exactly the first entry in ladder order whose
threshold is at most elapsed and that is not in the fired set (none when
no such entry exists); and with the fired set held fixed the result is
monotonic in elapsed: an entry due at e is still the one due at every
later e (in particular an entry is due and it is not later in ladder
order). The loop and the one-entry view agree unconditionally. -/
theorem c5_next_due (actions : List RecAction) (called : Finset RecAction) (e : Int) :
    (List.Sorted threshLE actions →
      nextDue actions called e = specNextDue actions called e) ∧
    (∀ (a : RecAction) (f : Int), nextDue actions called e = some a → e ≤ f →
      nextDue actions called f = some a) ∧
    dispatchActions actions called e =
      (match nextDue actions called e with
        | none => (called, [])
        | some a => (insert a called, [a])) := by
  refine ⟨?_, ?_, ?_⟩
  · intro hs
    induction actions with
    | nil => rfl
    | cons a rest ih =>
      have hrest : List.Sorted threshLE rest := hs.of_cons
      simp only [nextDue, specNextDue]
      split_ifs with h1 h2
      · symm
        rw [List.find?_eq_none]
        intro x hx
        simp only [Bool.and_eq_true, decide_eq_true_eq, not_and]
        intro hxe
        rcases List.mem_cons.mp hx with h | h
        · subst h; omega
        · have := List.rel_of_sorted_cons hs x h
          exact absurd hxe (not_le.mpr (lt_of_lt_of_le h1 this))
      · rw [ih hrest]
        simp only [specNextDue]
        rw [List.find?_cons_of_neg]
        simp [h2, not_lt.mp h1]
      · rw [List.find?_cons_of_pos]
        simp [h2, not_lt.mp h1]
  · intro a f
    induction actions with
    | nil => intro ha hef; simp [nextDue] at ha
    | cons b rest ih =>
      intro ha hef
      simp only [nextDue] at ha ⊢
      by_cases h1 : e < b.thresh
      · rw [if_pos h1] at ha
        simp at ha
      · rw [if_neg h1] at ha
        rw [if_neg (show ¬ f < b.thresh by omega)]
        by_cases h2 : b ∈ called
        · rw [if_pos h2] at ha
          rw [if_pos h2]
          exact ih ha hef
        · rw [if_neg h2] at ha
          rw [if_neg h2]
          exact ha
  · induction actions with
    | nil => rfl
    | cons b rest ih =>
      simp only [dispatchActions, nextDue]
      split_ifs with h1 h2
      · rfl
      · exact ih
      · rfl

theorem c5_witness :
    nextDue [⟨5, RecActKind.network⟩, ⟨10, RecActKind.soft⟩] ∅ 7 =
      specNextDue [⟨5, RecActKind.network⟩, ⟨10, RecActKind.soft⟩] ∅ 7 ∧
    nextDue [⟨5, RecActKind.network⟩, ⟨10, RecActKind.soft⟩] ∅ 9 =
      some ⟨5, RecActKind.network⟩ := by
  have h := c5_next_due [⟨5, RecActKind.network⟩, ⟨10, RecActKind.soft⟩] ∅ 7
  exact ⟨h.1 (by decide), h.2.1 ⟨5, RecActKind.network⟩ 9 (by decide) (by decide)⟩

/-! ## Branch equations for update -/

theorem Watchdog.update_eq_healthy (w : Watchdog) (ok : Bool) (now : Int)
    (h1 : w.health_score_config.health_check_healthy_perc ≤
      (w.health_score.add ok).percentage)
    (h2 : ¬ (w.health_score.add ok).percentage <
      w.health_score_config.health_check_recovery_perc) :
    w.update ok now =
      ⟨{ w with
          health_score := w.health_score.add ok
          called_actions := ∅
          last_connection_time := now }, true, false, []⟩ := by
  simp only [Watchdog.update]
  rw [if_pos h1, if_neg h2]

theorem Watchdog.update_eq_healthy_failing (w : Watchdog) (ok : Bool) (now : Int)
    (h1 : w.health_score_config.health_check_healthy_perc ≤
      (w.health_score.add ok).percentage)
    (h2 : (w.health_score.add ok).percentage <
      w.health_score_config.health_check_recovery_perc) :
    w.update ok now =
      ⟨{ w with
          health_score := w.health_score.add ok
          called_actions :=
            (dispatchActions w.recovery_actions ∅ (now - w.last_connection_time)).1
          last_connection_time := now }, true, true,
        (dispatchActions w.recovery_actions ∅ (now - w.last_connection_time)).2⟩ := by
  simp only [Watchdog.update]
  rw [if_pos h1, if_pos h2]

theorem Watchdog.update_eq_failing (w : Watchdog) (ok : Bool) (now : Int)
    (h1 : ¬ w.health_score_config.health_check_healthy_perc ≤
      (w.health_score.add ok).percentage)
    (h2 : (w.health_score.add ok).percentage <
      w.health_score_config.health_check_recovery_perc) :
    w.update ok now =
      ⟨{ w with
          health_score := w.health_score.add ok
          called_actions :=
            (dispatchActions w.recovery_actions w.called_actions
              (now - w.last_connection_time)).1
          last_connection_time := w.last_connection_time }, false, true,
        (dispatchActions w.recovery_actions w.called_actions
          (now - w.last_connection_time)).2⟩ := by
  simp only [Watchdog.update]
  rw [if_neg h1, if_pos h2]

theorem Watchdog.update_eq_mid (w : Watchdog) (ok : Bool) (now : Int)
    (h1 : ¬ w.health_score_config.health_check_healthy_perc ≤
      (w.health_score.add ok).percentage)
    (h2 : ¬ (w.health_score.add ok).percentage <
      w.health_score_config.health_check_recovery_perc) :
    w.update ok now =
      ⟨{ w with
          health_score := w.health_score.add ok
          called_actions := w.called_actions
          last_connection_time := w.last_connection_time }, false, false, []⟩ := by
  simp only [Watchdog.update]
  rw [if_neg h1, if_neg h2]

/-! ## Episode lemmas for the fired set -/

theorem update_passed_false_subset (w : Watchdog) (ok : Bool) (now : Int)
    (h : (w.update ok now).passed = false) :
    w.called_actions ⊆ (w.update ok now).wd.called_actions := by
  by_cases h1 : w.health_score_config.health_check_healthy_perc ≤
      (w.health_score.add ok).percentage
  · by_cases h2 : (w.health_score.add ok).percentage <
        w.health_score_config.health_check_recovery_perc
    · rw [Watchdog.update_eq_healthy_failing w ok now h1 h2] at h
      simp at h
    · rw [Watchdog.update_eq_healthy w ok now h1 h2] at h
      simp at h
  · by_cases h2 : (w.health_score.add ok).percentage <
        w.health_score_config.health_check_recovery_perc
    · rw [Watchdog.update_eq_failing w ok now h1 h2]
      exact dispatchActions_called_subset _ _ _
    · rw [Watchdog.update_eq_mid w ok now h1 h2]

theorem update_passed_false_invoked (w : Watchdog) (ok : Bool) (now : Int)
    (a : RecAction) (h : (w.update ok now).passed = false)
    (ha : a ∈ (w.update ok now).invoked) :
    a ∉ w.called_actions ∧ a ∈ (w.update ok now).wd.called_actions := by
  by_cases h1 : w.health_score_config.health_check_healthy_perc ≤
      (w.health_score.add ok).percentage
  · by_cases h2 : (w.health_score.add ok).percentage <
        w.health_score_config.health_check_recovery_perc
    · rw [Watchdog.update_eq_healthy_failing w ok now h1 h2] at h
      simp at h
    · rw [Watchdog.update_eq_healthy w ok now h1 h2] at h
      simp at h
  · by_cases h2 : (w.health_score.add ok).percentage <
        w.health_score_config.health_check_recovery_perc
    · rw [Watchdog.update_eq_failing w ok now h1 h2] at ha ⊢
      exact dispatchActions_invoked_mem _ _ _ a ha
    · rw [Watchdog.update_eq_mid w ok now h1 h2] at ha
      simp at ha

theorem update_passed_false_not_called (w : Watchdog) (ok : Bool) (now : Int)
    (a : RecAction) (h : (w.update ok now).passed = false)
    (hnc : a ∉ w.called_actions) (hni : a ∉ (w.update ok now).invoked) :
    a ∉ (w.update ok now).wd.called_actions := by
  by_cases h1 : w.health_score_config.health_check_healthy_perc ≤
      (w.health_score.add ok).percentage
  · by_cases h2 : (w.health_score.add ok).percentage <
        w.health_score_config.health_check_recovery_perc
    · rw [Watchdog.update_eq_healthy_failing w ok now h1 h2] at h
      simp at h
    · rw [Watchdog.update_eq_healthy w ok now h1 h2] at h
      simp at h
  · by_cases h2 : (w.health_score.add ok).percentage <
        w.health_score_config.health_check_recovery_perc
    · rw [Watchdog.update_eq_failing w ok now h1 h2] at hni ⊢
      intro hmem
      rcases dispatchActions_mem_fst _ _ _ a hmem with hc | hc
      · exact hnc hc
      · exact hni hc
    · rw [Watchdog.update_eq_mid w ok now h1 h2]
      exact hnc

theorem runUpdates_count_zero (inputs : List (Bool × Int)) :
    ∀ (w : Watchdog) (a : RecAction),
      (∀ u ∈ (runUpdates w inputs).2, u.passed = false) →
      a ∈ w.called_actions →
      countInvoked (runUpdates w inputs).2 a = 0 := by
  induction inputs with
  | nil => intro w a _ _; rfl
  | cons p rest ih =>
    intro w a hnp hmem
    obtain ⟨ok, t⟩ := p
    simp only [runUpdates] at hnp ⊢
    have hu : (w.update ok t).passed = false := hnp _ (List.mem_cons_self _ _)
    have hni : a ∉ (w.update ok t).invoked := by
      intro hmem2
      exact (update_passed_false_invoked w ok t a hu hmem2).1 hmem
    have hrest : ∀ u ∈ (runUpdates (w.update ok t).wd rest).2, u.passed = false :=
      fun u hu2 => hnp u (List.mem_cons_of_mem _ hu2)
    have hmem2 : a ∈ (w.update ok t).wd.called_actions :=
      update_passed_false_subset w ok t hu hmem
    have htail := ih (w.update ok t).wd a hrest hmem2
    simp only [countInvoked, List.filter_cons]
    rw [decide_eq_false hni]
    simpa [countInvoked] using htail

theorem runUpdates_count_le_one (inputs : List (Bool × Int)) :
    ∀ (w : Watchdog) (a : RecAction),
      (∀ u ∈ (runUpdates w inputs).2, u.passed = false) →
      a ∉ w.called_actions →
      countInvoked (runUpdates w inputs).2 a ≤ 1 := by
  induction inputs with
  | nil => intro w a _ _; simp [runUpdates, countInvoked]
  | cons p rest ih =>
    intro w a hnp hnc
    obtain ⟨ok, t⟩ := p
    simp only [runUpdates] at hnp ⊢
    have hu : (w.update ok t).passed = false := hnp _ (List.mem_cons_self _ _)
    have hrest : ∀ u ∈ (runUpdates (w.update ok t).wd rest).2, u.passed = false :=
      fun u hu2 => hnp u (List.mem_cons_of_mem _ hu2)
    by_cases hi : a ∈ (w.update ok t).invoked
    · have hmem2 : a ∈ (w.update ok t).wd.called_actions :=
        (update_passed_false_invoked w ok t a hu hi).2
      have htail := runUpdates_count_zero rest (w.update ok t).wd a hrest hmem2
      simp only [countInvoked, List.filter_cons]
      rw [decide_eq_true hi]
      simp only [countInvoked] at htail
      simp [htail]
    · have hnc2 : a ∉ (w.update ok t).wd.called_actions :=
        update_passed_false_not_called w ok t a hu hnc hi
      have htail := ih (w.update ok t).wd a hrest hnc2
      simp only [countInvoked, List.filter_cons]
      rw [decide_eq_false hi]
      simpa [countInvoked] using htail

/-- Claim C10: ladder entry identity is structural equality on the
(threshold, action function) pair, so the fired set identifies duplicate
entries; across any run of ticks none of which classifies healthy (a
single failure episode), each entry value starting outside the fired set
is invoked at most once, even when it occurs as several ladder entries. -/
theorem c10_duplicate_entries_once_per_episode (w : Watchdog) (a : RecAction)
    (inputs : List (Bool × Int))
    (hepisode : ∀ u ∈ (runUpdates w inputs).2, u.passed = false)
    (hstart : a ∉ w.called_actions) :
    countInvoked (runUpdates w inputs).2 a ≤ 1 :=
  runUpdates_count_le_one inputs w a hepisode hstart

theorem c10_witness :
    countInvoked
      (runUpdates
        ⟨[⟨5, RecActKind.network⟩, ⟨5, RecActKind.network⟩], ∅, ⟨1, 1, 1⟩,
          ⟨[false], 1, 0⟩, 0⟩
        [(false, 10), (false, 20)]).2
      ⟨5, RecActKind.network⟩ ≤ 1 := by
  exact c10_duplicate_entries_once_per_episode
    ⟨[⟨5, RecActKind.network⟩, ⟨5, RecActKind.network⟩], ∅, ⟨1, 1, 1⟩,
      ⟨[false], 1, 0⟩, 0⟩
    ⟨5, RecActKind.network⟩ [(false, 10), (false, 20)]
    (by norm_num [runUpdates, Watchdog.update, HealthHistory.add, dequeAppend,
      dispatchActions])
    (by simp)

/-! ## Healthy-tick counter resets -/

theorem health_check_passed_zero (fs : Files) (c : CounterId) :
    readValue (health_check_passed fs).1 c = 0 := by
  simp only [health_check_passed]
  cases c <;> simp [readValue_update_reset_file]

theorem health_check_passed_events (fs : Files) :
    (health_check_passed fs).2 =
      (if (0 : Int) ≠ readValue fs CounterId.hard
        then [Event.writeCtr CounterId.hard 0] else []) ++
      (if (0 : Int) ≠ readValue fs CounterId.soft
        then [Event.writeCtr CounterId.soft 0] else []) ++
      (if (0 : Int) ≠ readValue fs CounterId.network
        then [Event.writeCtr CounterId.network 0] else []) := by
  simp only [health_check_passed]
  rw [update_reset_file_events, update_reset_file_events, update_reset_file_events,
    readValue_update_reset_file, readValue_update_reset_file,
    readValue_update_reset_file]
  simp

/-- Claim C4: the fired set is cleared and last_connection_time advanced
only by an update whose pass ratio (computed on that tick) is at least the
healthy ratio; on every other tick last_connection_time is unchanged and
no element leaves the fired set (it is never cleared; on a firing tick it
grows by the fired entry, per the spec monotonicity invariant); and on a
healthy tick, under the configuration invariant recovery at most healthy,
all three counters read 0 afterwards and the only events are the
counter-zeroing writes, each performed only when the stored value differed
from 0 (the set_if_differs behaviour of update_reset_file). -/
theorem c4_healthy_only_clears (cfg : NetworkWatchdogConfig) (s : SystemState)
    (ok : Bool) (now : Int)
    (hinv : s.wd.health_score_config.health_check_recovery_perc ≤
      s.wd.health_score_config.health_check_healthy_perc) :
    ((s.wd.health_score.add ok).percentage <
        s.wd.health_score_config.health_check_healthy_perc →
      (systemUpdate cfg s ok now).1.wd.last_connection_time =
        s.wd.last_connection_time ∧
      s.wd.called_actions ⊆ (systemUpdate cfg s ok now).1.wd.called_actions) ∧
    (s.wd.health_score_config.health_check_healthy_perc ≤
        (s.wd.health_score.add ok).percentage →
      (systemUpdate cfg s ok now).1.wd.called_actions = ∅ ∧
      (systemUpdate cfg s ok now).1.wd.last_connection_time = now ∧
      (∀ c : CounterId, readValue (systemUpdate cfg s ok now).1.files c = 0) ∧
      (systemUpdate cfg s ok now).2 =
        (if (0 : Int) ≠ readValue s.files CounterId.hard
          then [Event.writeCtr CounterId.hard 0] else []) ++
        (if (0 : Int) ≠ readValue s.files CounterId.soft
          then [Event.writeCtr CounterId.soft 0] else []) ++
        (if (0 : Int) ≠ readValue s.files CounterId.network
          then [Event.writeCtr CounterId.network 0] else [])) := by
  by_cases h1 : s.wd.health_score_config.health_check_healthy_perc ≤
      (s.wd.health_score.add ok).percentage
  · have h2 : ¬ (s.wd.health_score.add ok).percentage <
        s.wd.health_score_config.health_check_recovery_perc :=
      not_lt.mpr (le_trans hinv h1)
    constructor
    · intro hlt
      exact absurd h1 (not_le.mpr hlt)
    · intro _
      simp only [systemUpdate, Watchdog.update_eq_healthy s.wd ok now h1 h2]
      refine ⟨by trivial, by trivial, fun c => ?_, ?_⟩
      · simpa using health_check_passed_zero s.files c
      · simpa using health_check_passed_events s.files
  · constructor
    · intro _
      by_cases h2 : (s.wd.health_score.add ok).percentage <
          s.wd.health_score_config.health_check_recovery_perc
      · simp only [systemUpdate, Watchdog.update_eq_failing s.wd ok now h1 h2]
        exact ⟨by trivial, dispatchActions_called_subset _ _ _⟩
      · simp only [systemUpdate, Watchdog.update_eq_mid s.wd ok now h1 h2]
        exact ⟨by trivial, Finset.Subset.refl _⟩
    · intro hh
      exact absurd hh h1

theorem c4_witness :
    (systemUpdate ⟨1, 30, 15, 100, 2, 200, 1⟩
        ⟨⟨[], ∅, ⟨2, 7/10, 3/10⟩, ⟨[true, true], 2, 1⟩, 0⟩,
          fun c => match c with
            | CounterId.hard => some (FData.num 3)
            | CounterId.soft => some (FData.num 0)
            | CounterId.network => none⟩
        true 99).1.wd.called_actions = ∅ ∧
    (systemUpdate ⟨1, 30, 15, 100, 2, 200, 1⟩
        ⟨⟨[], ∅, ⟨2, 7/10, 3/10⟩, ⟨[true, true], 2, 1⟩, 0⟩,
          fun c => match c with
            | CounterId.hard => some (FData.num 3)
            | CounterId.soft => some (FData.num 0)
            | CounterId.network => none⟩
        true 99).1.wd.last_connection_time = 99 ∧
    readValue
      (systemUpdate ⟨1, 30, 15, 100, 2, 200, 1⟩
        ⟨⟨[], ∅, ⟨2, 7/10, 3/10⟩, ⟨[true, true], 2, 1⟩, 0⟩,
          fun c => match c with
            | CounterId.hard => some (FData.num 3)
            | CounterId.soft => some (FData.num 0)
            | CounterId.network => none⟩
        true 99).1.files CounterId.hard = 0 ∧
    (systemUpdate ⟨1, 30, 15, 100, 2, 200, 1⟩
        ⟨⟨[], ∅, ⟨2, 7/10, 3/10⟩, ⟨[true, true], 2, 1⟩, 0⟩,
          fun c => match c with
            | CounterId.hard => some (FData.num 3)
            | CounterId.soft => some (FData.num 0)
            | CounterId.network => none⟩
        true 99).2 = [Event.writeCtr CounterId.hard 0] := by
  have h := c4_healthy_only_clears ⟨1, 30, 15, 100, 2, 200, 1⟩
    ⟨⟨[], ∅, ⟨2, 7/10, 3/10⟩, ⟨[true, true], 2, 1⟩, 0⟩,
      fun c => match c with
        | CounterId.hard => some (FData.num 3)
        | CounterId.soft => some (FData.num 0)
        | CounterId.network => none⟩
    true 99 (by norm_num)
  have h2 := h.2 (by norm_num [HealthHistory.add, dequeAppend])
  refine ⟨h2.1, h2.2.1, h2.2.2.1 CounterId.hard, ?_⟩
  rw [h2.2.2.2]
  norm_num [readValue, read_resets_safe]

/-! ## Ladder construction: range characterisation and sort stability -/

theorem pyRangeLen_iff (a b s : Int) (hs : 0 < s) (i : Nat) :
    i < pyRangeLen a b s ↔ a + s * i < b := by
  unfold pyRangeLen
  split_ifs with hba
  · constructor
    · intro h
      exact absurd h (Nat.not_lt_zero i)
    · intro h
      exfalso
      have h0 : 0 ≤ s * (i : ℤ) := mul_nonneg hs.le (Int.ofNat_nonneg i)
      omega
  · push_neg at hba
    rw [Int.lt_toNat, Int.lt_add_one_iff, Int.le_ediv_iff_mul_le hs]
    have hc : (i : ℤ) * s = s * (i : ℤ) := mul_comm _ _
    omega

theorem mem_pyRange (a b s t : Int) (hs : 0 < s) :
    t ∈ pyRange a b s ↔ ∃ k : Nat, t = a + s * k ∧ t < b := by
  unfold pyRange
  rw [List.mem_map]
  constructor
  · rintro ⟨i, hi, hit⟩
    rw [List.mem_range] at hi
    refine ⟨i, hit.symm, ?_⟩
    rw [← hit]
    exact (pyRangeLen_iff a b s hs i).mp hi
  · rintro ⟨k, ht, hk⟩
    refine ⟨k, ?_, ht.symm⟩
    rw [List.mem_range]
    refine (pyRangeLen_iff a b s hs k).mpr ?_
    rw [← ht]
    exact hk

theorem filter_orderedInsert (t : Int) (x : RecAction) (l : List RecAction) :
    (List.orderedInsert threshLE x l).filter (fun a => decide (a.thresh = t)) =
      if x.thresh = t
        then x :: l.filter (fun a => decide (a.thresh = t))
        else l.filter (fun a => decide (a.thresh = t)) := by
  induction l with
  | nil =>
    simp only [List.orderedInsert, List.filter_cons, List.filter_nil]
    by_cases hx : x.thresh = t <;> simp [hx]
  | cons b l ih =>
    simp only [List.orderedInsert]
    by_cases hxb : threshLE x b
    · rw [if_pos hxb]
      by_cases hx : x.thresh = t <;> simp [List.filter_cons, hx]
    · rw [if_neg hxb]
      have hbx : b.thresh < x.thresh := not_le.mp hxb
      by_cases hx : x.thresh = t
      · have hb : ¬ b.thresh = t := by omega
        simp [List.filter_cons, hb, hx, ih]
      · simp [List.filter_cons, ih, hx]

theorem filter_insertionSort (t : Int) (l : List RecAction) :
    (List.insertionSort threshLE l).filter (fun a => decide (a.thresh = t)) =
      l.filter (fun a => decide (a.thresh = t)) := by
  induction l with
  | nil => rfl
  | cons x l ih =>
    simp only [List.insertionSort]
    rw [filter_orderedInsert]
    by_cases hx : x.thresh = t <;> simp [List.filter_cons, hx, ih]

/-- Claim C6: the constructed ladder is a rearrangement of exactly the
seeded entries, namely (soft_reset_start, SOFT), (hard_reset_start, HARD)
and (t, NETWORK) for the t in the arithmetic progression starting at
network_reset_start with step network_reset_interval that lie strictly
below min(soft_reset_start, hard_reset_start); it is sorted ascending by
threshold; and the sort is stable: for every threshold value the entries
with that threshold appear in the sorted ladder exactly in insertion
order (the filter at each threshold is unchanged by the sort). -/
theorem c6_ladder_construction (cfg : NetworkWatchdogConfig)
    (hs : 0 < cfg.network_reset_interval) :
    (build_rec_actions cfg).Perm (rec_actions_unsorted cfg) ∧
    List.Sorted threshLE (build_rec_actions cfg) ∧
    (∀ t : Int, (build_rec_actions cfg).filter (fun a => decide (a.thresh = t)) =
      (rec_actions_unsorted cfg).filter (fun a => decide (a.thresh = t))) ∧
    (∀ t : Int, (⟨t, RecActKind.network⟩ : RecAction) ∈ rec_actions_unsorted cfg ↔
      (∃ k : Nat, t = cfg.network_reset_start + cfg.network_reset_interval * k) ∧
        t < min cfg.soft_reset_start cfg.hard_reset_start) ∧
    (rec_actions_unsorted cfg).filter (fun a => decide (a.func = RecActKind.soft)) =
      [⟨cfg.soft_reset_start, RecActKind.soft⟩] ∧
    (rec_actions_unsorted cfg).filter (fun a => decide (a.func = RecActKind.hard)) =
      [⟨cfg.hard_reset_start, RecActKind.hard⟩] := by
  refine ⟨List.perm_insertionSort threshLE _, List.sorted_insertionSort threshLE _,
    fun t => filter_insertionSort t _, fun t => ?_, ?_, ?_⟩
  · have hmem : (⟨t, RecActKind.network⟩ : RecAction) ∈ rec_actions_unsorted cfg ↔
        t ∈ pyRange cfg.network_reset_start
          (min cfg.soft_reset_start cfg.hard_reset_start)
          cfg.network_reset_interval := by
      unfold rec_actions_unsorted
      simp [RecAction.mk.injEq, eq_comm]
    rw [hmem, mem_pyRange _ _ _ _ hs]
    constructor
    · rintro ⟨k, rfl, hk⟩
      exact ⟨⟨k, rfl⟩, hk⟩
    · rintro ⟨⟨k, rfl⟩, hk⟩
      exact ⟨k, rfl, hk⟩
  · unfold rec_actions_unsorted
    simp [List.filter_append, List.filter_cons, List.filter_map, Function.comp]
  · unfold rec_actions_unsorted
    simp [List.filter_append, List.filter_cons, List.filter_map, Function.comp]

theorem c6_witness :
    List.Sorted threshLE (build_rec_actions ⟨1, 30, 15, 100, 2, 200, 1⟩) ∧
    (⟨45, RecActKind.network⟩ : RecAction) ∈
      rec_actions_unsorted ⟨1, 30, 15, 100, 2, 200, 1⟩ := by
  have h := c6_ladder_construction ⟨1, 30, 15, 100, 2, 200, 1⟩ (by decide)
  exact ⟨h.2.1, (h.2.2.2.1 45).mpr ⟨⟨1, by decide⟩, by decide⟩⟩
